import Mathlib

/-!
Verification of the interview-wizard core of the repository
(`src/app.py`, `src/main.py`, `src/utils.py`).

The Python source is shallowly embedded below.  Dictionaries (`interview_form`,
`FIELD_REQUIREMENTS`, `defaultdict` fields of `InterviewMemory`) are modelled
as insertion-ordered association lists; the external language-model call is
modelled as an explicit parameter (its outcome: failure, unparsable reply, or
a parsed reply), exactly at the granularity each call site distinguishes.
-/

set_option autoImplicit false

namespace Interview

/-- Python `str.lower` (`Char.toLower`, ASCII case mapping — every string
the source lowers is ASCII). -/
def pyLower (s : String) : String :=
  ⟨s.data.map Char.toLower⟩

/-- Python `str.strip`: drop leading and trailing whitespace. -/
def pyStrip (s : String) : String :=
  ⟨((s.data.dropWhile Char.isWhitespace).reverse.dropWhile Char.isWhitespace).reverse⟩

/-- Python `str.replace` for a one-character pattern and replacement (the
only use in the source is `.replace("_", " ")`). -/
def pyReplace (s : String) (old new : Char) : String :=
  ⟨s.data.map (fun c => if c == old then new else c)⟩

/-- Python's substring test `needle in hay`, on explicit character lists. -/
def listContainsSub (needle : List Char) : List Char → Bool
  | [] => needle.isEmpty
  | c :: rest => needle.isPrefixOf (c :: rest) || listContainsSub needle rest

/-- Python's `needle in hay` for strings. -/
def strContains (hay needle : String) : Bool :=
  listContainsSub needle.data hay.data

/-- Association-list lookup, Python `d[k]` read (first matching key). -/
def alistFind? {α : Type} (l : List (String × α)) (k : String) : Option α :=
  (l.find? (fun p => p.1 == k)).map Prod.snd

/-- Association-list update: replace the value at an existing key, append the
key at the end when absent (Python dict / `defaultdict` write semantics). -/
def alistSet {α : Type} : List (String × α) → String → α → List (String × α)
  | [], k, v => [(k, v)]
  | (k', v') :: rest, k, v =>
      if k' == k then (k, v) :: rest else (k', v') :: alistSet rest k v

/-- `fields[fields.index(f) + 1]` when it exists, `none` on `IndexError`
(`f` last) — the "next field" computation shared by both controllers. -/
def nextAfter : List String → String → Option String
  | [], _ => none
  | x :: xs, f => if x == f then xs.head? else nextAfter xs f

/-- `fields.index f` (index of the first occurrence; length when absent). -/
def fieldIdx : List String → String → Nat
  | [], _ => 0
  | x :: xs, f => if x == f then 0 else fieldIdx xs f + 1

/-! ## InterviewMemory (`src/main.py` 14–25, identical in `src/utils.py` 6–26) -/

/-- `InterviewMemory`: `field_memory` is a `defaultdict(list)` of raw
utterances per field, `current_responses` a `defaultdict(str)` of the
space-joined composite per field. -/
structure InterviewMemory where
  field_memory : List (String × List String)
  current_responses : List (String × String)
  deriving DecidableEq, Repr

/-- `InterviewMemory.__init__`. -/
def InterviewMemory.empty : InterviewMemory := ⟨[], []⟩

/-- `defaultdict(list)` read of `field_memory[field]`. -/
def InterviewMemory.fieldList (m : InterviewMemory) (field : String) : List String :=
  (alistFind? m.field_memory field).getD []

/-- `InterviewMemory.add_response`: append the utterance, recompute the
composite as `" ".join(self.field_memory[field])`. -/
def InterviewMemory.add_response (m : InterviewMemory) (field response : String) :
    InterviewMemory :=
  let newList := m.fieldList field ++ [response]
  { field_memory := alistSet m.field_memory field newList
    current_responses := alistSet m.current_responses field (String.intercalate " " newList) }

/-- `InterviewMemory.get_field_history` (`defaultdict(str)` read). -/
def InterviewMemory.get_field_history (m : InterviewMemory) (field : String) : String :=
  (alistFind? m.current_responses field).getD ""

/-- `InterviewMemory.get_latest_response` (`src/utils.py` 20–22):
`self.field_memory[field][-1] if self.field_memory[field] else ""`. -/
def InterviewMemory.get_latest_response (m : InterviewMemory) (field : String) : String :=
  match m.fieldList field with
  | [] => ""
  | xs => xs.getLast?.getD ""

/-- `InterviewMemory.get_all_responses` (`src/utils.py` 24–26). -/
def InterviewMemory.get_all_responses (m : InterviewMemory) (field : String) : List String :=
  m.fieldList field

/-! ## Topic catalog (`FIELD_REQUIREMENTS`, identical in `src/main.py` 39–102
and `src/utils.py` 28–91) -/

structure FieldReq where
  description : String
  expected : String
  follow_up_questions : List String
  deriving DecidableEq, Repr

def FIELD_REQUIREMENTS : List (String × FieldReq) :=
  [ ("name",
     { description := "Full name of the candidate"
       expected := "First and last name"
       follow_up_questions :=
         [ "Could you spell your full name for me?"
         , "Do you go by any other names professionally?" ] })
  , ("current_role",
     { description := "Current job position and main responsibilities"
       expected := "Job title, company, key responsibilities, team size, main achievements"
       follow_up_questions :=
         [ "What are your main responsibilities in this role?"
         , "How large is the team you work with?"
         , "What have been your key achievements in this position?" ] })
  , ("years_of_experience",
     { description := "Total relevant work experience"
       expected := "Years of total experience, years in current field, career progression"
       follow_up_questions :=
         [ "How long have you been working in this field specifically?"
         , "Could you briefly outline your career progression?"
         , "What different roles have you held during your career?" ] })
  , ("technical_skills",
     { description := "Technical abilities and proficiency levels"
       expected := "List of skills with proficiency levels (beginner/intermediate/expert), recent usage"
       follow_up_questions :=
         [ "Could you rate your proficiency in each skill mentioned?"
         , "How recently have you used these skills?"
         , "What projects have you completed using these skills?" ] })
  , ("project_experience",
     { description := "Significant projects and achievements"
       expected := "Project descriptions, role, technologies used, outcomes, challenges overcome"
       follow_up_questions :=
         [ "What was your specific role in these projects?"
         , "What challenges did you face and how did you overcome them?"
         , "What were the measurable outcomes of these projects?" ] })
  , ("motivation",
     { description := "Career goals and motivation for the position"
       expected := "Short-term and long-term goals, interest in the position, alignment with career path"
       follow_up_questions :=
         [ "What interests you most about this position?"
         , "Where do you see yourself in 5 years?"
         , "How does this role align with your career goals?" ] })
  , ("preferred_work_environment",
     { description := "Work style and preferred environment"
       expected := "Preferred work style, team dynamics, company culture, work-life balance"
       follow_up_questions :=
         [ "What type of company culture do you thrive in?"
         , "How do you prefer to collaborate with team members?"
         , "What management style works best for you?" ] })
  ]

/-- `FIELD_REQUIREMENTS[field]['follow_up_questions'][0]`. -/
def firstFollowUp (field : String) : String :=
  ((alistFind? FIELD_REQUIREMENTS field).map
    (fun r => r.follow_up_questions.headD "")).getD ""

/-! ## Form (`interview_form`, identical in `src/main.py` 28–36 and
`src/utils.py` 93–101) -/

/-- A form entry's `value` is a string for every field except
`technical_skills`, whose initial value is the empty list. -/
inductive FormValue where
  | str (s : String)
  | list (xs : List String)
  deriving DecidableEq, Repr

structure FormEntry where
  value : FormValue
  satisfaction : Int
  deriving DecidableEq, Repr

def interview_form : List (String × FormEntry) :=
  [ ("name", { value := .str "", satisfaction := 0 })
  , ("current_role", { value := .str "", satisfaction := 0 })
  , ("years_of_experience", { value := .str "", satisfaction := 0 })
  , ("technical_skills", { value := .list [], satisfaction := 0 })
  , ("project_experience", { value := .str "", satisfaction := 0 })
  , ("motivation", { value := .str "", satisfaction := 0 })
  , ("preferred_work_environment", { value := .str "", satisfaction := 0 })
  ]

/-- `interview_form[field]["value"] = v; interview_form[field]["satisfaction"] = s`
(Python raises `KeyError` when `field` is absent; every call below passes a
present key, on which `alistSet` agrees with the source). -/
def setFormEntry (form : List (String × FormEntry)) (field : String)
    (v : FormValue) (s : Int) : List (String × FormEntry) :=
  alistSet form field { value := v, satisfaction := s }

def satisfactionOf (form : List (String × FormEntry)) (field : String) : Option Int :=
  (alistFind? form field).map FormEntry.satisfaction

/-! ## Negative-response detectors -/

/-- The indicator list of `src/app.py` 11–15, repeated verbatim as the
fallback list of `src/utils.py` 195–199. -/
def negative_indicators_full : List String :=
  [ "no", "none", "nothing", "don't have", "do not have"
  , "nothing comes to mind", "haven't done any", "i don't"
  , "no experience", "no projects" ]

/-- The shorter indicator list of `src/main.py` 133–136. -/
def negative_indicators_main : List String :=
  [ "no", "none", "nothing", "don't have", "do not have"
  , "nothing comes to mind", "haven't done any" ]

/-- `is_negative_response` of `src/app.py` 7–17 (keyword strategy over the
full list): lower-case, strip, then substring-match any indicator. -/
def is_negative_response_app (response : String) : Bool :=
  let response_lower := pyStrip (pyLower response)
  negative_indicators_full.any (fun ind => strContains response_lower ind)

/-- `is_negative_response` of `src/main.py` 129–138 (keyword strategy over
the shorter list). -/
def is_negative_response_main (response : String) : Bool :=
  let response_lower := pyStrip (pyLower response)
  negative_indicators_main.any (fun ind => strContains response_lower ind)

/-- The `except` fallback of `src/utils.py` `is_negative_response` 192–201:
keyword matching over the full indicator list. -/
def keyword_fallback (response : String) : Bool :=
  let response_lower := pyStrip (pyLower response)
  negative_indicators_full.any (fun ind => strContains response_lower ind)

/-- `is_negative_response` of `src/utils.py` 161–201 (judge strategy).  The
external call is a parameter: `some content` is a completed call returning
`content`, `none` a raised exception.  On success the code returns
`content.strip().lower() == "true"`; only an exception reaches the keyword
fallback. -/
def is_negative_response_utils (judgeOutput : Option String) (response : String) : Bool :=
  match judgeOutput with
  | some content => pyLower (pyStrip content) == "true"
  | none => keyword_fallback response

/-! ## `evaluate_response` of `src/utils.py` 103–159 -/

/-- Outcome of the judge call as `src/utils.py`'s `evaluate_response`
distinguishes it: the call raised, `json.loads` raised, or a parsed JSON
object whose four expected keys are each present or absent (`setdefault`
looks only at key presence). -/
inductive JudgeReply where
  | callFailure
  | parseFailure
  | parsed (satisfaction_score : Option Int) (analysis : Option String)
      (missing_info : Option String) (follow_up_question : Option String)
  deriving DecidableEq, Repr

/-- The dict returned by `src/utils.py` `evaluate_response` (the error dict's
extra `skip_topic: False` key is never read by any caller and is omitted). -/
structure UtilsVerdict where
  satisfaction_score : Int
  analysis : String
  missing_info : String
  follow_up_question : String
  deriving DecidableEq, Repr

/-- The `except` dict of `src/utils.py` 153–159. -/
def utils_error_verdict (field : String) : UtilsVerdict :=
  { satisfaction_score := 5
    analysis := "Error occurred during analysis"
    missing_info := "Error in evaluation"
    follow_up_question :=
      match alistFind? FIELD_REQUIREMENTS field with
      | some req => req.follow_up_questions.headD ""
      | none => "Could you please provide more details?" }

/-- `evaluate_response` of `src/utils.py` 103–159.  `response` and `memory`
only feed the prompt sent to the judge, whose outcome is the `judge`
parameter.  A `field` outside `FIELD_REQUIREMENTS` raises `KeyError` while
building the prompt inside the `try`, landing in the `except` branch. -/
def utils_evaluate_response (judge : JudgeReply) (response : String) (field : String)
    (memory : InterviewMemory) : UtilsVerdict :=
  match alistFind? FIELD_REQUIREMENTS field with
  | none => utils_error_verdict field
  | some req =>
      match judge with
      | .callFailure => utils_error_verdict field
      | .parseFailure => utils_error_verdict field
      | .parsed score analysis missing follow =>
          { satisfaction_score := score.getD 5
            analysis := analysis.getD "Analysis not provided"
            missing_info := missing.getD "None"
            follow_up_question := follow.getD (req.follow_up_questions.headD "") }

/-! ## `evaluate_response` of `src/main.py` 140–195 -/

/-- A judge reply successfully parsed with the five keys every caller of
`src/main.py`'s `evaluate_response` reads; a malformed or non-JSON reply is
a call failure (spec §6), modelled as `none` at the call sites. -/
structure JudgeVerdict where
  satisfaction_score : Int
  analysis : String
  missing_info : String
  follow_up_question : String
  summary : String
  deriving DecidableEq, Repr

/-- The dict returned by `src/main.py` `evaluate_response`; `skip_topic`
models `evaluation.get("skip_topic", False)` (absent key reads as `false`). -/
structure MainVerdict where
  satisfaction_score : Int
  missing_info : String
  follow_up_question : String
  analysis : String
  summary : String
  skip_topic : Bool
  deriving DecidableEq, Repr

/-- `evaluate_response` of `src/main.py` 140–195.  A negative response (per
the shorter keyword list) returns the skip verdict without touching memory
and without any judge call; otherwise the response is appended to memory
first, then the judge reply (or the `except` default of lines 189–195) is
returned.  A `field` outside `FIELD_REQUIREMENTS` raises an uncaught
`KeyError` while building the prompt; every call below passes a catalog
field. -/
def main_evaluate_response (judge : Option JudgeVerdict) (response field : String)
    (memory : InterviewMemory) : MainVerdict × InterviewMemory :=
  if is_negative_response_main response then
    ({ satisfaction_score := 0
       missing_info := "Candidate has no experience in this area"
       follow_up_question := ""
       analysis := "Candidate clearly indicated no experience in this area"
       summary := "No " ++ pyReplace field '_' ' ' ++ " to report"
       skip_topic := true }, memory)
  else
    let memory := memory.add_response field response
    match judge with
    | some v =>
        ({ satisfaction_score := v.satisfaction_score, missing_info := v.missing_info
           follow_up_question := v.follow_up_question, analysis := v.analysis
           summary := v.summary, skip_topic := false }, memory)
    | none =>
        ({ satisfaction_score := 5
           missing_info := "Error in evaluation"
           follow_up_question := firstFollowUp field
           analysis := "Error occurred during analysis"
           summary := ""
           skip_topic := false }, memory)

/-! ## The streamlit controller (`src/app.py`) -/

/-- The session state `process_response` reads and writes (`messages` and
`agent_processes` are display surface, out of scope per spec §1). -/
structure AppState where
  current_field : String
  interview_form : List (String × FormEntry)
  memory : InterviewMemory
  deriving DecidableEq, Repr

/-- `initialize_session_state` (`src/app.py` 19–35). -/
def app_initial_state : AppState :=
  { current_field := "name", interview_form := interview_form
    memory := .empty }

/-- `process_response` (`src/app.py` 37–117), returning the new state and the
emitted assistant message.  Note the `evaluate_response` it calls is the one
imported from `src/main.py` (line 4), which appends the prompt to memory a
second time after the explicit `add_response` of line 68. -/
def app_process_response (judge : Option JudgeVerdict) (s : AppState)
    (prompt : String) : AppState × String :=
  if is_negative_response_app prompt then
    let form := setFormEntry s.interview_form s.current_field (.str "No experience reported") 0
    let fields := form.map Prod.fst
    match nextAfter fields s.current_field with
    | some next_field =>
        ({ s with current_field := next_field, interview_form := form },
         "I understand. Let's move on to your " ++ pyReplace next_field '_' ' ' ++ ". "
           ++ firstFollowUp next_field)
    | none =>
        ({ s with interview_form := form }, "Thank you, we've completed all the topics!")
  else
    let m1 := s.memory.add_response s.current_field prompt
    let ev := main_evaluate_response judge prompt s.current_field m1
    let form := setFormEntry s.interview_form s.current_field
      (.str (ev.2.get_field_history s.current_field)) ev.1.satisfaction_score
    if ev.1.satisfaction_score ≥ 7 then
      match nextAfter (form.map Prod.fst) s.current_field with
      | some next_field =>
          ({ current_field := next_field, interview_form := form, memory := ev.2 },
           "Great! Let's move on to your " ++ pyReplace next_field '_' ' ' ++ ". "
             ++ firstFollowUp next_field)
      | none =>
          ({ s with interview_form := form, memory := ev.2 },
           "Thank you, we've completed all the topics!")
    else
      ({ s with interview_form := form, memory := ev.2 }, ev.1.follow_up_question)

/-- Progress-tracker glyph per field (`src/app.py` 133–139). -/
def progress_glyph (satisfaction : Int) : String :=
  if satisfaction == 0 then "⏭️"
  else if satisfaction ≥ 7 then "✅"
  else "⏳"

/-! ## The terminal controller (`src/main.py`) -/

/-- Per-field `status` written by `save_interview_state`
(`src/main.py` 242–244). -/
def persisted_status (satisfaction : Int) : String :=
  if satisfaction == 0 then "skipped"
  else if satisfaction ≥ 7 then "complete"
  else "incomplete"

/-- The scan of `determine_next_question`'s `for` loop
(`src/main.py` 216–225). -/
def scanIncomplete : List (String × FormEntry) → Option String × String
  | [] => (none, "We've covered everything I needed to know. Is there anything else you'd like to add?")
  | (field, data) :: rest =>
      if data.satisfaction == 0 then scanIncomplete rest
      else if data.satisfaction < 7 then (some field, firstFollowUp field)
      else scanIncomplete rest

/-- `determine_next_question` (`src/main.py` 197–225).  A truthy
`current_field` absent from the form raises `KeyError` in the source; every
call below passes a key of the form, on which `(satisfactionOf _ _).getD 0`
agrees with the source.  `nextAfter _ _ = none` covers exactly the
`ValueError`/`IndexError` cases of the `try`. -/
def determine_next_question (current_form : List (String × FormEntry))
    (current_field : String) : Option String × String :=
  let fields := current_form.map Prod.fst
  if current_field != "" && decide ((satisfactionOf current_form current_field).getD 0 ≥ 7) then
    match nextAfter fields current_field with
    | some next_field =>
        (some next_field,
         "Let's talk about your " ++ pyReplace next_field '_' ' ' ++ ". "
           ++ firstFollowUp next_field)
    | none =>
        (none, "We've covered everything I needed to know. Is there anything else you'd like to add?")
  else
    scanIncomplete current_form

/-- The loop state of `conduct_interview` (`src/main.py` 262–338). -/
structure MainState where
  memory : InterviewMemory
  interview_form : List (String × FormEntry)
  current_field : String
  current_question : String
  deriving DecidableEq, Repr

/-- `conduct_interview`'s initial state (`src/main.py` 263–265). -/
def main_initial_state : MainState :=
  { memory := .empty, interview_form := interview_form
    current_field := "name"
    current_question := "Could you please tell me your full name?" }

/-- One iteration of `conduct_interview`'s `while True` loop
(`src/main.py` 271–329), returning the state as the loop leaves it and
whether the loop continues (`false` models `break`: "exit", skipping the
last field, or advancing past the last field).  On the advance-past-last
break the source assigns `current_field = None` before breaking, which no
later code reads — the model leaves the field in place.
`save_interview_state` only writes a file (out of scope) and does not change
the session state. -/
def conduct_interview_step (judge : Option JudgeVerdict) (s : MainState)
    (response : String) : MainState × Bool :=
  if pyLower response == "exit" then (s, false)
  else
    let ev := main_evaluate_response judge response s.current_field s.memory
    if ev.1.skip_topic then
      let form := setFormEntry s.interview_form s.current_field (.str "No experience reported") 0
      match nextAfter (form.map Prod.fst) s.current_field with
      | some next_field =>
          ({ memory := ev.2
             interview_form := form
             current_field := next_field
             current_question := "Let's talk about your " ++ pyReplace next_field '_' ' '
               ++ ". " ++ firstFollowUp next_field }, true)
      | none => ({ s with memory := ev.2, interview_form := form }, false)
    else
      let form := setFormEntry s.interview_form s.current_field
        (.str (ev.2.get_field_history s.current_field)) ev.1.satisfaction_score
      if ev.1.satisfaction_score < 7 then
        ({ s with
             memory := ev.2
             interview_form := form
             current_question := ev.1.follow_up_question }, true)
      else
        match determine_next_question form s.current_field with
        | (some next_field, q) =>
            ({ memory := ev.2
               interview_form := form
               current_field := next_field
               current_question := q }, true)
        | (none, q) =>
            ({ s with memory := ev.2, interview_form := form, current_question := q }, false)

/-! ## Run traces (for the temporal claim) -/

/-- The sequence of states an `app.py` session passes through, given the
judge outcome and utterance of each turn. -/
def app_run_states (turns : List (Option JudgeVerdict × String)) (s : AppState) :
    List AppState :=
  match turns with
  | [] => [s]
  | (j, u) :: rest => s :: app_run_states rest (app_process_response j s u).1

/-- The sequence of states a `conduct_interview` session passes through;
the trace stops where the loop breaks. -/
def conduct_interview_run (turns : List (Option JudgeVerdict × String)) (s : MainState) :
    List MainState :=
  match turns with
  | [] => [s]
  | (j, u) :: rest =>
      s :: (match conduct_interview_step j s u with
            | (s', true) => conduct_interview_run rest s'
            | (s', false) => [s'])

/-! ## SessionStore (`src/utils.py` 203–234) -/

structure Message where
  role : String
  content : String
  deriving DecidableEq, Repr

/-- The JSON document `save_chat_history` writes to
`chat_history/interview.json` (file mechanics out of scope, spec §1). -/
structure SavedChat where
  messages : List Message
  interview_form : List (String × FormEntry)
  field_memory : List (String × List String)
  current_responses : List (String × String)
  deriving DecidableEq, Repr

/-- `save_chat_history` (`src/utils.py` 203–217). -/
def save_chat_history (messages : List Message) (form : List (String × FormEntry))
    (memory : InterviewMemory) : SavedChat :=
  { messages := messages
    interview_form := form
    field_memory := memory.field_memory
    current_responses := memory.current_responses }

/-- `load_chat_history` (`src/utils.py` 219–234); `none` models
`FileNotFoundError` (no prior record). -/
def load_chat_history (stored : Option SavedChat) :
    List Message × List (String × FormEntry) × InterviewMemory :=
  match stored with
  | some data =>
      (data.messages, data.interview_form,
       { field_memory := data.field_memory, current_responses := data.current_responses })
  | none => ([], [], .empty)

/-- The advance condition of `process_response` (`src/app.py` 39 and 102):
the negative gate fires, or the evaluator imported from `src/main.py`
reports a satisfaction score of at least 7 (the evaluator is applied, as in
the source, after the utterance was already appended once by line 68). -/
def app_advances (judge : Option JudgeVerdict) (s : AppState) (u : String) : Prop :=
  is_negative_response_app u = true ∨
    (main_evaluate_response judge u s.current_field
      (s.memory.add_response s.current_field u)).1.satisfaction_score ≥ 7

instance (judge : Option JudgeVerdict) (s : AppState) (u : String) :
    Decidable (app_advances judge s u) := by
  unfold app_advances; infer_instance

/-- The advance condition of `conduct_interview` (`src/main.py` 285 and
323): the evaluator's skip flag, or a score of at least 7. -/
def main_advances (judge : Option JudgeVerdict) (s : MainState) (u : String) : Prop :=
  (main_evaluate_response judge u s.current_field s.memory).1.skip_topic = true ∨
    (main_evaluate_response judge u s.current_field s.memory).1.satisfaction_score ≥ 7

instance (judge : Option JudgeVerdict) (s : MainState) (u : String) :
    Decidable (main_advances judge s u) := by
  unfold main_advances; infer_instance

/-! ## Helper lemmas -/

lemma alistFind?_set_self {α : Type} :
    ∀ (l : List (String × α)) (k : String) (v : α),
      alistFind? (alistSet l k v) k = some v
  | [], k, v => by simp [alistSet, alistFind?, List.find?]
  | (k', v') :: rest, k, v => by
      by_cases h : k' = k
      · simp [alistSet, alistFind?, List.find?, h]
      · simpa [alistSet, alistFind?, List.find?, h]
          using alistFind?_set_self rest k v

lemma beq_false_of_ne {a b : String} (h : a ≠ b) : (a == b) = false :=
  beq_eq_false_iff_ne.mpr h

lemma alistFind?_set_ne {α : Type} :
    ∀ (l : List (String × α)) (k k' : String) (v : α), k' ≠ k →
      alistFind? (alistSet l k v) k' = alistFind? l k'
  | [], k, k', v, h => by
      simp [alistSet, alistFind?, List.find?, beq_false_of_ne (Ne.symm h)]
  | (k₀, v₀) :: rest, k, k', v, h => by
      by_cases h0 : k₀ = k
      · subst h0
        simp [alistSet, alistFind?, List.find?, beq_false_of_ne (Ne.symm h)]
      · have hbk : (k₀ == k) = false := beq_false_of_ne h0
        by_cases h1 : k₀ = k'
        · have hbk' : (k₀ == k') = true := by simp [h1]
          simp [alistSet, alistFind?, List.find?, hbk, hbk']
        · have hbk' : (k₀ == k') = false := beq_false_of_ne h1
          simpa [alistSet, alistFind?, List.find?, hbk, hbk']
            using alistFind?_set_ne rest k k' v h

lemma alistSet_keys {α : Type} :
    ∀ (l : List (String × α)) (k : String) (v : α), k ∈ l.map Prod.fst →
      (alistSet l k v).map Prod.fst = l.map Prod.fst
  | [], k, v, h => by simp at h
  | (k₀, v₀) :: rest, k, v, h => by
      by_cases h0 : k₀ = k
      · simp [alistSet, h0]
      · have : k ∈ rest.map Prod.fst := by
          simpa [h0, Ne.symm h0] using h
        simp [alistSet, h0, alistSet_keys rest k v this]

lemma setFormEntry_keys (form : List (String × FormEntry)) (f : String)
    (v : FormValue) (sc : Int) (h : f ∈ form.map Prod.fst) :
    (setFormEntry form f v sc).map Prod.fst = form.map Prod.fst :=
  alistSet_keys form f _ h

lemma satisfactionOf_setFormEntry_self (form : List (String × FormEntry))
    (f : String) (v : FormValue) (sc : Int) :
    satisfactionOf (setFormEntry form f v sc) f = some sc := by
  simp [satisfactionOf, setFormEntry, alistFind?_set_self]

lemma nextAfter_mem : ∀ (K : List String) (f nf : String),
    nextAfter K f = some nf → nf ∈ K
  | [], f, nf, h => by simp [nextAfter] at h
  | x :: xs, f, nf, h => by
      by_cases hx : x = f
      · simp only [nextAfter, hx, beq_self_eq_true, if_true] at h
        exact List.mem_cons_of_mem x (List.mem_of_mem_head? h)
      · simp only [nextAfter, hx, beq_iff_eq, if_false] at h
        exact List.mem_cons_of_mem x (nextAfter_mem xs f nf h)

lemma nextAfter_idx : ∀ (K : List String) (f nf : String), K.Nodup →
    nextAfter K f = some nf → fieldIdx K nf = fieldIdx K f + 1
  | [], f, nf, _, h => by simp [nextAfter] at h
  | x :: xs, f, nf, hnd, h => by
      rw [List.nodup_cons] at hnd
      by_cases hx : x = f
      · subst hx
        simp only [nextAfter, beq_self_eq_true, if_true] at h
        have hnfmem : nf ∈ xs := List.mem_of_mem_head? h
        have hxnf : x ≠ nf := fun he => hnd.1 (he ▸ hnfmem)
        cases xs with
        | nil => simp at h
        | cons y ys =>
            simp only [List.head?] at h
            cases h
            simp [fieldIdx, hxnf]
      · have hstep := nextAfter_idx xs f nf hnd.2 (by simpa [nextAfter, hx] using h)
        have hnfmem : nf ∈ xs := nextAfter_mem xs f nf (by simpa [nextAfter, hx] using h)
        have hxnf : x ≠ nf := fun he => hnd.1 (he ▸ hnfmem)
        simp [fieldIdx, hx, hxnf, hstep]

lemma fieldIdx_inj : ∀ (K : List String) (a b : String), K.Nodup →
    a ∈ K → b ∈ K → fieldIdx K a = fieldIdx K b → a = b
  | [], a, b, _, ha, _, _ => by simp at ha
  | x :: xs, a, b, hnd, ha, hb, h => by
      rw [List.nodup_cons] at hnd
      by_cases hxa : x = a
      · by_cases hxb : x = b
        · rw [← hxa, ← hxb]
        · by_cases hab : a = b
          · exact hab
          · simp [fieldIdx, hxa, hxb, hab] at h
      · by_cases hxb : x = b
        · by_cases hab : a = b
          · exact hab
          · exfalso
            simp [fieldIdx, hxa, hxb] at h
            exact hab h.symm
        · have ha' : a ∈ xs := by
            cases ha with
            | head => exact absurd rfl hxa
            | tail _ h' => exact h'
          have hb' : b ∈ xs := by
            cases hb with
            | head => exact absurd rfl hxb
            | tail _ h' => exact h'
          have h' : fieldIdx xs a = fieldIdx xs b := by
            simpa [fieldIdx, hxa, hxb] using h
          exact fieldIdx_inj xs a b hnd.2 ha' hb' h'

lemma nextAfter_ne (K : List String) (f nf : String) (hnd : K.Nodup)
    (h : nextAfter K f = some nf) : nf ≠ f := by
  intro he
  have := nextAfter_idx K f nf hnd h
  rw [he] at this
  omega

lemma fieldList_add_self (m : InterviewMemory) (f u : String) :
    (m.add_response f u).fieldList f = m.fieldList f ++ [u] := by
  simp [InterviewMemory.add_response, InterviewMemory.fieldList, alistFind?_set_self]

lemma history_add_self (m : InterviewMemory) (f u : String) :
    (m.add_response f u).get_field_history f =
      String.intercalate " " (m.fieldList f ++ [u]) := by
  simp [InterviewMemory.add_response, InterviewMemory.get_field_history,
    InterviewMemory.fieldList, alistFind?_set_self]

lemma fieldList_add_ne (m : InterviewMemory) (f f' u : String) (h : f' ≠ f) :
    (m.add_response f u).fieldList f' = m.fieldList f' := by
  simp [InterviewMemory.add_response, InterviewMemory.fieldList,
    alistFind?_set_ne _ _ _ _ h]

lemma history_add_ne (m : InterviewMemory) (f f' u : String) (h : f' ≠ f) :
    (m.add_response f u).get_field_history f' = m.get_field_history f' := by
  simp [InterviewMemory.add_response, InterviewMemory.get_field_history,
    alistFind?_set_ne _ _ _ _ h]

/-- The `src/main.py` indicator list is contained in the `src/app.py` one, so
an utterance `src/main.py`'s detector flags is flagged by `src/app.py`'s. -/
lemma negative_main_imp_app (u : String)
    (h : is_negative_response_main u = true) : is_negative_response_app u = true := by
  unfold is_negative_response_main at h
  unfold is_negative_response_app
  rw [List.any_eq_true] at h ⊢
  obtain ⟨ind, hmem, hP⟩ := h
  have hsub : ∀ x ∈ negative_indicators_main, x ∈ negative_indicators_full := by decide
  exact ⟨ind, hsub ind hmem, hP⟩

lemma not_negative_main_of_not_app (u : String)
    (h : is_negative_response_app u = false) : is_negative_response_main u = false := by
  cases hm : is_negative_response_main u
  · rfl
  · rw [negative_main_imp_app u hm] at h
    cases h

/-- The skip flag of `src/main.py`'s `evaluate_response` is exactly its
negative-response gate. -/
lemma main_eval_skip_iff (judge : Option JudgeVerdict) (u f : String)
    (m : InterviewMemory) :
    (main_evaluate_response judge u f m).1.skip_topic = is_negative_response_main u := by
  unfold main_evaluate_response
  cases hneg : is_negative_response_main u
  · cases judge <;> simp [hneg]
  · simp [hneg]

lemma main_eval_neg (judge : Option JudgeVerdict) (u f : String)
    (m : InterviewMemory) (hneg : is_negative_response_main u = true) :
    main_evaluate_response judge u f m =
      ({ satisfaction_score := 0
         missing_info := "Candidate has no experience in this area"
         follow_up_question := ""
         analysis := "Candidate clearly indicated no experience in this area"
         summary := "No " ++ pyReplace f '_' ' ' ++ " to report"
         skip_topic := true }, m) := by
  unfold main_evaluate_response
  simp [hneg]

/-- Where `process_response` leaves the current-topic pointer. -/
lemma app_current_spec (judge : Option JudgeVerdict) (s : AppState) (u : String)
    (hmem : s.current_field ∈ s.interview_form.map Prod.fst) :
    (app_process_response judge s u).1.current_field =
      (if app_advances judge s u
       then (nextAfter (s.interview_form.map Prod.fst) s.current_field).getD s.current_field
       else s.current_field) := by
  unfold app_process_response app_advances
  by_cases hneg : is_negative_response_app u = true
  · simp only [hneg]
    simp only [if_true, eq_self_iff_true, true_or, if_pos trivial]
    rw [setFormEntry_keys _ _ _ _ hmem]
    cases hna : nextAfter (s.interview_form.map Prod.fst) s.current_field <;> simp [hna]
  · rw [Bool.not_eq_true] at hneg
    by_cases hge : (main_evaluate_response judge u s.current_field
        (s.memory.add_response s.current_field u)).1.satisfaction_score ≥ 7
    · simp only [hneg, Bool.false_eq_true, if_false, hge, if_true]
      rw [setFormEntry_keys _ _ _ _ hmem]
      cases hna : nextAfter (s.interview_form.map Prod.fst) s.current_field <;>
        simp [hna, hge]
    · simp [hneg, hge]

/-- `process_response` preserves the form's key sequence. -/
lemma app_keys_spec (judge : Option JudgeVerdict) (s : AppState) (u : String)
    (hmem : s.current_field ∈ s.interview_form.map Prod.fst) :
    (app_process_response judge s u).1.interview_form.map Prod.fst =
      s.interview_form.map Prod.fst := by
  unfold app_process_response
  by_cases hneg : is_negative_response_app u = true
  · simp only [hneg, if_pos trivial]
    rw [setFormEntry_keys _ _ _ _ hmem]
    cases hna : nextAfter (s.interview_form.map Prod.fst) s.current_field <;>
      simp [hna, setFormEntry_keys _ _ _ _ hmem]
  · rw [Bool.not_eq_true] at hneg
    by_cases hge : (main_evaluate_response judge u s.current_field
        (s.memory.add_response s.current_field u)).1.satisfaction_score ≥ 7
    · simp only [hneg, Bool.false_eq_true, if_false, hge, if_true]
      rw [setFormEntry_keys _ _ _ _ hmem]
      cases hna : nextAfter (s.interview_form.map Prod.fst) s.current_field <;>
        simp [hna, setFormEntry_keys _ _ _ _ hmem]
    · simp [hneg, hge, setFormEntry_keys _ _ _ _ hmem]

/-- The negative branch of `process_response` (`src/app.py` 39–65): score 0,
memory untouched, and no dependence on the judge. -/
lemma app_neg_spec (judge judge' : Option JudgeVerdict) (s : AppState) (u : String)
    (hneg : is_negative_response_app u = true) :
    (app_process_response judge s u).1.memory = s.memory
    ∧ satisfactionOf (app_process_response judge s u).1.interview_form s.current_field = some 0
    ∧ app_process_response judge s u = app_process_response judge' s u := by
  unfold app_process_response
  simp only [hneg, if_pos trivial]
  cases hna : nextAfter ((setFormEntry s.interview_form s.current_field
      (.str "No experience reported") 0).map Prod.fst) s.current_field <;>
    simp [hna, satisfactionOf_setFormEntry_self]

/-- The negative branch's emitted message and pointer, by position of the
current field. -/
lemma app_neg_messages (judge : Option JudgeVerdict) (s : AppState) (u : String)
    (hneg : is_negative_response_app u = true)
    (hmem : s.current_field ∈ s.interview_form.map Prod.fst) :
    (nextAfter (s.interview_form.map Prod.fst) s.current_field = none →
      (app_process_response judge s u).2 = "Thank you, we've completed all the topics!"
      ∧ (app_process_response judge s u).1.current_field = s.current_field)
    ∧ (∀ nf, nextAfter (s.interview_form.map Prod.fst) s.current_field = some nf →
      (app_process_response judge s u).1.current_field = nf
      ∧ (app_process_response judge s u).2 =
          "I understand. Let's move on to your " ++ pyReplace nf '_' ' ' ++ ". "
            ++ firstFollowUp nf) := by
  unfold app_process_response
  simp only [hneg, if_pos trivial]
  rw [setFormEntry_keys _ _ _ _ hmem]
  cases hna : nextAfter (s.interview_form.map Prod.fst) s.current_field <;> simp [hna]

/-- When the just-written score clears the threshold, `determine_next_question`
takes its first branch. -/
lemma determine_next_question_complete (form : List (String × FormEntry)) (f : String)
    (hne : f ≠ "") (hsat : (satisfactionOf form f).getD 0 ≥ 7) :
    determine_next_question form f =
      match nextAfter (form.map Prod.fst) f with
      | some nf =>
          (some nf, "Let's talk about your " ++ pyReplace nf '_' ' ' ++ ". "
            ++ firstFollowUp nf)
      | none =>
          (none, "We've covered everything I needed to know. Is there anything else you'd like to add?") := by
  unfold determine_next_question
  simp [bne_iff_ne, hne, hsat]

/-- Where one `conduct_interview` iteration leaves the pointer, and when the
loop breaks. -/
lemma main_current_spec (judge : Option JudgeVerdict) (s : MainState) (u : String)
    (hmem : s.current_field ∈ s.interview_form.map Prod.fst)
    (hne : s.current_field ≠ "")
    (hexit : pyLower u ≠ "exit") :
    (conduct_interview_step judge s u).1.current_field =
      (if main_advances judge s u
       then (nextAfter (s.interview_form.map Prod.fst) s.current_field).getD s.current_field
       else s.current_field)
    ∧ ((conduct_interview_step judge s u).2 = false ↔
        (main_advances judge s u ∧
          nextAfter (s.interview_form.map Prod.fst) s.current_field = none)) := by
  unfold conduct_interview_step main_advances
  have hbex : (pyLower u == "exit") = false := beq_false_of_ne hexit
  simp only [hbex, Bool.false_eq_true, if_false]
  by_cases hskip : (main_evaluate_response judge u s.current_field s.memory).1.skip_topic = true
  · simp only [hskip, if_pos trivial]
    rw [setFormEntry_keys _ _ _ _ hmem]
    cases hna : nextAfter (s.interview_form.map Prod.fst) s.current_field <;>
      simp [hna, hskip]
  · rw [Bool.not_eq_true] at hskip
    simp only [hskip, Bool.false_eq_true, if_false]
    by_cases hlt : (main_evaluate_response judge u s.current_field s.memory).1.satisfaction_score < 7
    · have hnadv : ¬ ((false : Bool) = true ∨
          (main_evaluate_response judge u s.current_field s.memory).1.satisfaction_score ≥ 7) := by
        push_neg
        exact ⟨Bool.false_ne_true, by omega⟩
      simp [hlt, hskip, hnadv]
      have hn7 : ¬ (7 : Int) ≤
          (main_evaluate_response judge u s.current_field s.memory).1.satisfaction_score := by
        omega
      rw [if_neg hn7]
    · have hge : (main_evaluate_response judge u s.current_field s.memory).1.satisfaction_score ≥ 7 := by
        omega
      rw [if_neg hlt]
      rw [determine_next_question_complete _ _ hne
        (by rw [satisfactionOf_setFormEntry_self]; simpa using hge)]
      rw [setFormEntry_keys _ _ _ _ hmem]
      cases hna : nextAfter (s.interview_form.map Prod.fst) s.current_field <;>
        simp [hna, hge]

/-- One `conduct_interview` iteration preserves the form's key sequence. -/
lemma main_keys_spec (judge : Option JudgeVerdict) (s : MainState) (u : String)
    (hmem : s.current_field ∈ s.interview_form.map Prod.fst) :
    (conduct_interview_step judge s u).1.interview_form.map Prod.fst =
      s.interview_form.map Prod.fst := by
  unfold conduct_interview_step
  by_cases hexit : pyLower u = "exit"
  · simp [hexit]
  · have hbex : (pyLower u == "exit") = false := beq_false_of_ne hexit
    simp only [hbex, Bool.false_eq_true, if_false]
    by_cases hskip : (main_evaluate_response judge u s.current_field s.memory).1.skip_topic = true
    · simp only [hskip, if_pos trivial]
      cases hna : nextAfter ((setFormEntry s.interview_form s.current_field
          (.str "No experience reported") 0).map Prod.fst) s.current_field <;>
        simp [hna, setFormEntry_keys _ _ _ _ hmem]
    · rw [Bool.not_eq_true] at hskip
      simp only [hskip, Bool.false_eq_true, if_false]
      by_cases hlt : (main_evaluate_response judge u s.current_field s.memory).1.satisfaction_score < 7
      · simp [hlt, setFormEntry_keys _ _ _ _ hmem]
      · rw [if_neg hlt]
        rcases hdnq : determine_next_question (setFormEntry s.interview_form s.current_field
            (.str ((main_evaluate_response judge u s.current_field s.memory).2.get_field_history
              s.current_field))
            (main_evaluate_response judge u s.current_field s.memory).1.satisfaction_score)
            s.current_field with ⟨onf, q⟩
        cases onf <;> simp [hdnq, setFormEntry_keys _ _ _ _ hmem]

/-- The skip branch of `conduct_interview` (`src/main.py` 285–305): score 0,
memory untouched, no dependence on the judge. -/
lemma main_neg_spec (judge judge' : Option JudgeVerdict) (s : MainState) (u : String)
    (hneg : is_negative_response_main u = true) (hexit : pyLower u ≠ "exit") :
    (conduct_interview_step judge s u).1.memory = s.memory
    ∧ satisfactionOf (conduct_interview_step judge s u).1.interview_form s.current_field = some 0
    ∧ conduct_interview_step judge s u = conduct_interview_step judge' s u := by
  unfold conduct_interview_step
  have hbex : (pyLower u == "exit") = false := beq_false_of_ne hexit
  simp only [hbex, Bool.false_eq_true, if_false]
  rw [main_eval_neg judge u _ _ hneg, main_eval_neg judge' u _ _ hneg]
  simp only [if_pos trivial]
  cases hna : nextAfter ((setFormEntry s.interview_form s.current_field
      (.str "No experience reported") 0).map Prod.fst) s.current_field <;>
    simp [hna, satisfactionOf_setFormEntry_self]

/-- The skip branch's pointer movement and loop flag. -/
lemma main_neg_advance (judge : Option JudgeVerdict) (s : MainState) (u : String)
    (hneg : is_negative_response_main u = true) (hexit : pyLower u ≠ "exit")
    (hmem : s.current_field ∈ s.interview_form.map Prod.fst) :
    (∀ nf, nextAfter (s.interview_form.map Prod.fst) s.current_field = some nf →
      (conduct_interview_step judge s u).1.current_field = nf
      ∧ (conduct_interview_step judge s u).2 = true)
    ∧ (nextAfter (s.interview_form.map Prod.fst) s.current_field = none →
      (conduct_interview_step judge s u).2 = false
      ∧ (conduct_interview_step judge s u).1.current_field = s.current_field) := by
  unfold conduct_interview_step
  have hbex : (pyLower u == "exit") = false := beq_false_of_ne hexit
  simp only [hbex, Bool.false_eq_true, if_false]
  rw [main_eval_neg judge u _ _ hneg]
  simp only [if_pos trivial]
  rw [setFormEntry_keys _ _ _ _ hmem]
  cases hna : nextAfter (s.interview_form.map Prod.fst) s.current_field <;> simp [hna]

/-- Each step either keeps the pointer or moves it to the catalog successor. -/
lemma app_step_next (judge : Option JudgeVerdict) (s : AppState) (u : String)
    (hmem : s.current_field ∈ s.interview_form.map Prod.fst) :
    (app_process_response judge s u).1.current_field = s.current_field ∨
      nextAfter (s.interview_form.map Prod.fst) s.current_field =
        some ((app_process_response judge s u).1.current_field) := by
  rw [app_current_spec judge s u hmem]
  by_cases hadv : app_advances judge s u
  · rw [if_pos hadv]
    cases hna : nextAfter (s.interview_form.map Prod.fst) s.current_field <;> simp [hna]
  · rw [if_neg hadv]
    left
    rfl

/-- Each `conduct_interview` iteration either keeps the pointer or moves it
to the catalog successor. -/
lemma main_step_next (judge : Option JudgeVerdict) (s : MainState) (u : String)
    (hmem : s.current_field ∈ s.interview_form.map Prod.fst)
    (hne : s.current_field ≠ "") :
    (conduct_interview_step judge s u).1.current_field = s.current_field ∨
      nextAfter (s.interview_form.map Prod.fst) s.current_field =
        some ((conduct_interview_step judge s u).1.current_field) := by
  by_cases hexit : pyLower u = "exit"
  · left
    unfold conduct_interview_step
    simp [hexit]
  · rw [(main_current_spec judge s u hmem hne hexit).1]
    by_cases hadv : main_advances judge s u
    · rw [if_pos hadv]
      cases hna : nextAfter (s.interview_form.map Prod.fst) s.current_field <;> simp [hna]
    · rw [if_neg hadv]
      left
      rfl

/-! ## Run-trace lemmas -/

lemma app_run_states_head (turns : List (Option JudgeVerdict × String)) (s : AppState) :
    (app_run_states turns s).head? = some s := by
  cases turns with
  | nil => rfl
  | cons t rest => rcases t with ⟨j, u⟩; rfl

lemma main_run_states_head (turns : List (Option JudgeVerdict × String)) (s : MainState) :
    (conduct_interview_run turns s).head? = some s := by
  cases turns with
  | nil => rfl
  | cons t rest =>
      rcases t with ⟨j, u⟩
      rw [conduct_interview_run]
      rfl

/-- Along any `app.py` run from a well-formed state, consecutive pointers are
equal or catalog successors, and every visited pointer is a catalog key. -/
lemma app_run_chain (K : List String) :
    ∀ (turns : List (Option JudgeVerdict × String)) (s : AppState),
      s.interview_form.map Prod.fst = K → s.current_field ∈ K →
      List.Chain' (fun a b : AppState =>
          b.current_field = a.current_field
            ∨ nextAfter K a.current_field = some b.current_field)
        (app_run_states turns s)
      ∧ (∀ x ∈ app_run_states turns s, x.current_field ∈ K)
  | [], s, _, hmem => by
      refine ⟨by simp [app_run_states], ?_⟩
      intro x hx
      simp only [app_run_states, List.mem_singleton] at hx
      subst hx
      exact hmem
  | (j, u) :: rest, s, hK, hmem => by
      have hmem' : s.current_field ∈ s.interview_form.map Prod.fst := by
        rw [hK]; exact hmem
      have hkeys : (app_process_response j s u).1.interview_form.map Prod.fst = K := by
        rw [app_keys_spec j s u hmem', hK]
      have hstep := app_step_next j s u hmem'
      rw [hK] at hstep
      have hcur : (app_process_response j s u).1.current_field ∈ K := by
        rcases hstep with h | h
        · rw [h]; exact hmem
        · exact nextAfter_mem K _ _ h
      obtain ⟨ih1, ih2⟩ := app_run_chain K rest (app_process_response j s u).1 hkeys hcur
      constructor
      · rw [app_run_states, List.chain'_cons']
        refine ⟨?_, ih1⟩
        intro y hy
        rw [app_run_states_head, Option.mem_some_iff] at hy
        subst hy
        exact hstep
      · intro x hx
        rw [app_run_states, List.mem_cons] at hx
        rcases hx with hx | hx
        · subst hx; exact hmem
        · exact ih2 x hx

/-- Along any `conduct_interview` run from a well-formed state, consecutive
pointers are equal or catalog successors, and every visited pointer is a
catalog key. -/
lemma main_run_chain (K : List String) (hblank : "" ∉ K) :
    ∀ (turns : List (Option JudgeVerdict × String)) (s : MainState),
      s.interview_form.map Prod.fst = K → s.current_field ∈ K →
      List.Chain' (fun a b : MainState =>
          b.current_field = a.current_field
            ∨ nextAfter K a.current_field = some b.current_field)
        (conduct_interview_run turns s)
      ∧ (∀ x ∈ conduct_interview_run turns s, x.current_field ∈ K)
  | [], s, _, hmem => by
      refine ⟨by simp [conduct_interview_run], ?_⟩
      intro x hx
      simp only [conduct_interview_run, List.mem_singleton] at hx
      subst hx
      exact hmem
  | (j, u) :: rest, s, hK, hmem => by
      have hmem' : s.current_field ∈ s.interview_form.map Prod.fst := by
        rw [hK]; exact hmem
      have hne : s.current_field ≠ "" := fun he => hblank (he ▸ hmem)
      have hkeys : (conduct_interview_step j s u).1.interview_form.map Prod.fst = K := by
        rw [main_keys_spec j s u hmem', hK]
      have hstep := main_step_next j s u hmem' hne
      rw [hK] at hstep
      have hcur : (conduct_interview_step j s u).1.current_field ∈ K := by
        rcases hstep with h | h
        · rw [h]; exact hmem
        · exact nextAfter_mem K _ _ h
      have hrel : (conduct_interview_step j s u).1.current_field = s.current_field
          ∨ nextAfter K s.current_field = some (conduct_interview_step j s u).1.current_field :=
        hstep
      rw [conduct_interview_run]
      rcases hflag : conduct_interview_step j s u with ⟨s', cont⟩
      rw [hflag] at hrel hcur hkeys
      cases cont
      · simp only
        constructor
        · rw [List.chain'_cons']
          exact ⟨fun y hy => by cases hy; exact hrel, List.chain'_singleton s'⟩
        · intro x hx
          rcases List.mem_cons.mp hx with hx | hx
          · subst hx; exact hmem
          · rw [List.mem_singleton] at hx
            subst hx
            exact hcur
      · obtain ⟨ih1, ih2⟩ := main_run_chain K hblank rest s' hkeys hcur
        simp only
        constructor
        · rw [List.chain'_cons']
          refine ⟨?_, ih1⟩
          intro y hy
          rw [main_run_states_head, Option.mem_some_iff] at hy
          subst hy
          exact hrel
        · intro x hx
          rcases List.mem_cons.mp hx with hx | hx
          · subst hx; exact hmem
          · exact ih2 x hx

/-- A chain of equal-or-successor pointer moves is index-monotone. -/
lemma chain_next_mono (K : List String) (hnd : K.Nodup) (tr : List String)
    (h : List.Chain' (fun a b => b = a ∨ nextAfter K a = some b) tr) :
    List.Pairwise (fun a b => fieldIdx K a ≤ fieldIdx K b) tr := by
  haveI : IsTrans String (fun a b => fieldIdx K a ≤ fieldIdx K b) :=
    ⟨fun a b c hab hbc => le_trans hab hbc⟩
  apply List.chain'_iff_pairwise.mp
  apply h.imp
  intro a b hab
  rcases hab with rfl | hab
  · exact le_refl _
  · have := nextAfter_idx K a b hnd hab
    omega

/-- With an index-monotone trace over distinct catalog keys, a revisited
pointer forces every pointer in between to be the same. -/
lemma mono_at_most_once (K : List String) (hnd : K.Nodup) (tr : List String)
    (hmemall : ∀ x ∈ tr, x ∈ K)
    (hp : List.Pairwise (fun a b => fieldIdx K a ≤ fieldIdx K b) tr) :
    ∀ (i j k : Fin tr.length), i < j → j < k →
      tr.get i = tr.get k → tr.get j = tr.get i := by
  intro i j k hij hjk heq
  rw [List.pairwise_iff_get] at hp
  have h1 := hp i j hij
  have h2 := hp j k hjk
  have hik : fieldIdx K (tr.get i) = fieldIdx K (tr.get k) := by rw [heq]
  have hji : fieldIdx K (tr.get j) = fieldIdx K (tr.get i) := by omega
  exact fieldIdx_inj K _ _ hnd
    (hmemall _ (List.get_mem tr j.1 j.2)) (hmemall _ (List.get_mem tr i.1 i.2)) hji

/-- A sequence of `add_response` calls, applied in order. -/
def apply_responses (ops : List (String × String)) (m : InterviewMemory) : InterviewMemory :=
  ops.foldl (fun m p => m.add_response p.1 p.2) m

lemma history_join_invariant :
    ∀ (ops : List (String × String)) (m : InterviewMemory),
      (∀ f, m.get_field_history f = String.intercalate " " (m.fieldList f)) →
      ∀ f, (apply_responses ops m).get_field_history f =
        String.intercalate " " ((apply_responses ops m).fieldList f)
  | [], _, hInv, f => hInv f
  | (f₀, u₀) :: rest, m, hInv, f => by
      have hunf : apply_responses ((f₀, u₀) :: rest) m =
          apply_responses rest (m.add_response f₀ u₀) := rfl
      rw [hunf]
      refine history_join_invariant rest (m.add_response f₀ u₀) ?_ f
      intro g
      by_cases hg : g = f₀
      · subst hg
        rw [history_add_self, fieldList_add_self]
      · rw [history_add_ne _ _ _ _ hg, fieldList_add_ne _ _ _ _ hg]
        exact hInv g

lemma fieldList_apply_untouched :
    ∀ (ops : List (String × String)) (m : InterviewMemory) (f : String),
      (∀ p ∈ ops, p.1 ≠ f) →
      (apply_responses ops m).fieldList f = m.fieldList f
  | [], _, _, _ => rfl
  | (f₀, u₀) :: rest, m, f, h => by
      have h0 : f₀ ≠ f := h (f₀, u₀) (List.mem_cons_self _ _)
      have hunf : apply_responses ((f₀, u₀) :: rest) m =
          apply_responses rest (m.add_response f₀ u₀) := rfl
      rw [hunf,
        fieldList_apply_untouched rest _ f (fun p hp => h p (List.mem_cons_of_mem _ hp)),
        fieldList_add_ne _ _ _ _ (Ne.symm h0)]

lemma alistFind?_isSome_of_mem {α : Type} :
    ∀ (l : List (String × α)) (k : String), k ∈ l.map Prod.fst →
      ∃ v, alistFind? l k = some v
  | [], k, h => by simp at h
  | (k₀, v₀) :: rest, k, h => by
      by_cases h0 : k₀ = k
      · exact ⟨v₀, by simp [alistFind?, List.find?, h0]⟩
      · have hkr : k ∈ rest.map Prod.fst := by
          simpa [h0, Ne.symm h0] using h
        obtain ⟨v, hv⟩ := alistFind?_isSome_of_mem rest k hkr
        exact ⟨v, by simpa [alistFind?, List.find?, beq_false_of_ne h0] using hv⟩

/-- The error Verdict always carries a non-empty follow-up question. -/
lemma utils_error_nonempty (field : String) :
    (utils_error_verdict field).follow_up_question ≠ "" := by
  unfold utils_error_verdict
  rcases hf : alistFind? FIELD_REQUIREMENTS field with _ | req
  · simp
  · simp only
    unfold alistFind? at hf
    rcases hopt : FIELD_REQUIREMENTS.find? (fun p => p.1 == field) with _ | pr <;>
      rw [hopt] at hf
    · cases hf
    · simp only [Option.map_some'] at hf
      have hreq : pr.2 = req := Option.some.inj hf
      have hmem := List.mem_of_find?_eq_some hopt
      have hall : ∀ p ∈ FIELD_REQUIREMENTS, p.2.follow_up_questions.headD "" ≠ "" := by
        decide
      rw [← hreq]
      exact hall pr hmem

/-- The non-negative, completed-judge-call path of `src/main.py`'s
`evaluate_response`. -/
lemma main_eval_some (v : JudgeVerdict) (u f : String) (m : InterviewMemory)
    (hneg : is_negative_response_main u = false) :
    main_evaluate_response (some v) u f m =
      ({ satisfaction_score := v.satisfaction_score, missing_info := v.missing_info
         follow_up_question := v.follow_up_question, analysis := v.analysis
         summary := v.summary, skip_topic := false }, m.add_response f u) := by
  unfold main_evaluate_response
  simp [hneg]

/-! ## Claim theorems -/

/-- **C4.** For every topic and after every sequence of append operations
starting from a fresh accumulator, the composite answer equals the
space-joined concatenation of the raw-utterance list in arrival order, and
it is the empty string for a topic to which nothing was appended. -/
theorem claim_C4 (ops : List (String × String)) (f : String) :
    (apply_responses ops InterviewMemory.empty).get_field_history f =
      String.intercalate " " ((apply_responses ops InterviewMemory.empty).fieldList f)
    ∧ ((∀ p ∈ ops, p.1 ≠ f) →
        (apply_responses ops InterviewMemory.empty).get_field_history f = "") := by
  have hbase : ∀ g, InterviewMemory.empty.get_field_history g =
      String.intercalate " " (InterviewMemory.empty.fieldList g) := fun g => rfl
  have hjoin := history_join_invariant ops InterviewMemory.empty hbase f
  refine ⟨hjoin, fun huntouched => ?_⟩
  rw [hjoin, fieldList_apply_untouched ops InterviewMemory.empty f huntouched]
  rfl

theorem claim_C4_witness :
    (apply_responses [("name", "John"), ("name", "Smith")]
        InterviewMemory.empty).get_field_history "name" =
      String.intercalate " " ((apply_responses [("name", "John"), ("name", "Smith")]
        InterviewMemory.empty).fieldList "name")
    ∧ (apply_responses [("name", "John")] InterviewMemory.empty).get_field_history
        "current_role" = "" :=
  ⟨(claim_C4 [("name", "John"), ("name", "Smith")] "name").1,
   (claim_C4 [("name", "John")] "current_role").2 (by decide)⟩

/-- **C6.** Persisting a session (transcript, form, accumulator) and
restoring it reconstructs an identical transcript, identical per-topic
satisfaction scores, and identical raw-utterance lists and composite strings
for every topic (`save_chat_history` / `load_chat_history`,
`src/utils.py` 203–234). -/
theorem claim_C6 (messages : List Message) (form : List (String × FormEntry))
    (memory : InterviewMemory) :
    (load_chat_history (some (save_chat_history messages form memory))).1 = messages
    ∧ (load_chat_history (some (save_chat_history messages form memory))).2.1 = form
    ∧ (∀ f, satisfactionOf
        (load_chat_history (some (save_chat_history messages form memory))).2.1 f =
          satisfactionOf form f)
    ∧ (∀ f, (load_chat_history (some (save_chat_history messages form memory))).2.2.fieldList f
        = memory.fieldList f)
    ∧ (∀ f, (load_chat_history
        (some (save_chat_history messages form memory))).2.2.get_field_history f =
          memory.get_field_history f)
    ∧ (load_chat_history (some (save_chat_history messages form memory))).2.2 = memory := by
  refine ⟨rfl, rfl, fun f => rfl, fun f => rfl, fun f => rfl, ?_⟩
  cases memory
  rfl

/-- **C10.** `get_latest_response` is total: it returns the empty string for
a topic with no recorded utterances, and the most recently appended
utterance otherwise (the `[-1]` read is guarded by the emptiness test). -/
theorem claim_C10 (m : InterviewMemory) (f : String) :
    (m.fieldList f = [] → m.get_latest_response f = "")
    ∧ (∀ xs x, m.fieldList f = xs ++ [x] → m.get_latest_response f = x)
    ∧ (∀ u, (m.add_response f u).get_latest_response f = u) := by
  have hlast : ∀ (m' : InterviewMemory) (xs : List String) (x : String),
      m'.fieldList f = xs ++ [x] → m'.get_latest_response f = x := by
    intro m' xs x h
    have hg : (xs ++ [x]).getLast?.getD "" = x := by
      rw [List.getLast?_concat]
      rfl
    rcases xs with _ | ⟨y, ys⟩ <;>
      simpa [InterviewMemory.get_latest_response, h] using hg
  exact ⟨fun h => by simp [InterviewMemory.get_latest_response, h], hlast m,
    fun u => hlast (m.add_response f u) (m.fieldList f) u (fieldList_add_self m f u)⟩

theorem claim_C10_witness :
    InterviewMemory.empty.get_latest_response "name" = ""
    ∧ (InterviewMemory.empty.add_response "name" "John").get_latest_response "name" = "John" :=
  ⟨(claim_C10 InterviewMemory.empty "name").1 (by decide),
   (claim_C10 InterviewMemory.empty "name").2.2 "John"⟩

/-- **C5 (code bug).** In the `src/app.py` flow a non-negative utterance is
appended twice, not once: `process_response` appends it (line 68) and then
calls the `evaluate_response` imported from `src/main.py` (line 4), which
appends it again (line 154).  At the failing input — fresh session, topic
`name`, utterance "John Smith" — the raw-utterance list gains two copies and
the stored composite repeats the utterance; the `conduct_interview` flow of
`src/main.py`, which appends only inside `evaluate_response`, appends it
exactly once. -/
theorem claim_C5 :
    is_negative_response_app "John Smith" = false
    ∧ app_initial_state.memory.fieldList "name" = []
    ∧ (app_process_response none app_initial_state "John Smith").1.memory.fieldList "name"
        = ["John Smith", "John Smith"]
    ∧ (app_process_response none app_initial_state "John Smith").1.memory.get_field_history
        "name" = "John Smith John Smith"
    ∧ (conduct_interview_step none main_initial_state "John Smith").1.memory.fieldList "name"
        = ["John Smith"] :=
  ⟨by decide, by decide, by decide, by decide, by decide⟩

/-- **C8 (counterexample).** A completed judge call whose output is not the
literal "true" does not fall back to the keyword strategy: with judge output
"maybe" and utterance "no", `src/utils.py`'s `is_negative_response` returns
`false` although the keyword strategy classifies "no" as negative. -/
theorem claim_C8_counterexample :
    is_negative_response_utils (some "maybe") "no" = false
    ∧ keyword_fallback "no" = true :=
  ⟨by decide, by decide⟩

/-- **C8 (amended).** The judge-strategy detector returns true iff the
judge's output, trimmed and lowercased, is the literal "true"; any other
completed output yields false regardless of the utterance (no keyword
fallback on success); only a judge call failure falls back to the keyword
strategy. -/
theorem claim_C8 (out u u' : String) :
    (is_negative_response_utils (some out) u = true ↔ pyLower (pyStrip out) = "true")
    ∧ is_negative_response_utils (some out) u = is_negative_response_utils (some out) u'
    ∧ is_negative_response_utils none u = keyword_fallback u := by
  refine ⟨?_, rfl, rfl⟩
  simp [is_negative_response_utils]

/-- **C9 (counterexample).** With a normal (non-negative, completed-judge)
evaluation returning score 0 on a fresh session's `name` topic, the
controller stays on the topic, yet the stored score 0 is presented and
persisted as skipped: `save_interview_state` labels it "skipped" (not
"incomplete") and the progress tracker shows the skip glyph. -/
theorem claim_C9_counterexample :
    is_negative_response_app "John Smith" = false
    ∧ (app_process_response (some ⟨0, "a", "m", "q", "s"⟩) app_initial_state
        "John Smith").1.current_field = "name"
    ∧ satisfactionOf (app_process_response (some ⟨0, "a", "m", "q", "s"⟩) app_initial_state
        "John Smith").1.interview_form "name" = some 0
    ∧ persisted_status 0 = "skipped"
    ∧ progress_glyph 0 = "⏭️"
    ∧ persisted_status 0 ≠ "incomplete" :=
  ⟨by decide, by decide, by decide, by decide, by decide, by decide⟩

/-- **C9 (amended).** If the evaluator's normal (non-negative,
completed-judge) path returns satisfaction 0 for the current topic, the
controller does stay on the topic and re-asks the verdict's follow-up
question (0 < 7), but the topic's status **is** presented and persisted as
skipped/not-applicable, because both the persisted status and the progress
glyph key on the stored score alone. -/
theorem claim_C9 (v : JudgeVerdict) (s : AppState) (u : String)
    (hneg : is_negative_response_app u = false)
    (hscore : v.satisfaction_score = 0) :
    (app_process_response (some v) s u).1.current_field = s.current_field
    ∧ (app_process_response (some v) s u).2 = v.follow_up_question
    ∧ satisfactionOf (app_process_response (some v) s u).1.interview_form s.current_field
        = some 0
    ∧ persisted_status 0 = "skipped"
    ∧ progress_glyph 0 = "⏭️" := by
  have hnm : is_negative_response_main u = false := not_negative_main_of_not_app u hneg
  unfold app_process_response
  simp only [hneg, Bool.false_eq_true, if_false]
  rw [main_eval_some v u s.current_field (s.memory.add_response s.current_field u) hnm]
  simp only [hscore]
  have h7 : ¬ ((0 : Int) ≥ 7) := by omega
  rw [if_neg h7]
  exact ⟨rfl, rfl, by rw [satisfactionOf_setFormEntry_self], by decide, by decide⟩

theorem claim_C9_witness :
    (app_process_response (some ⟨0, "a", "m", "q", "s"⟩) app_initial_state
        "Paris").1.current_field = "name"
    ∧ persisted_status 0 = "skipped" := by
  obtain ⟨h1, _, _, h4, _⟩ :=
    claim_C9 ⟨0, "a", "m", "q", "s"⟩ app_initial_state "Paris" (by decide) (by decide)
  exact ⟨h1, h4⟩

/-- **C3 (counterexample).** A judge reply that parses but is missing every
field does not produce the default error Verdict the claim requires: the
`setdefault` path fills `analysis` with "Analysis not provided" and
`missing_info` with "None", not "Error occurred during analysis" /
"Error in evaluation". -/
theorem claim_C3_counterexample :
    utils_evaluate_response (.parsed none none none none) "resp" "name"
        InterviewMemory.empty =
      { satisfaction_score := 5
        analysis := "Analysis not provided"
        missing_info := "None"
        follow_up_question := "Could you spell your full name for me?" }
    ∧ utils_evaluate_response (.parsed none none none none) "resp" "name"
        InterviewMemory.empty ≠ utils_error_verdict "name" :=
  ⟨by decide, by decide⟩

/-- **C3 (amended).** On judge call failure or parse failure,
`src/utils.py`'s `evaluate_response` returns the default error Verdict —
score 5, analysis "Error occurred during analysis", missing-info "Error in
evaluation", follow-up the topic's first configured prompt (or a generic
fallback for an unrecognized topic) — with score 5 < 7 and a non-empty
question, so a threshold controller stays and re-asks; a successfully
parsed reply with missing fields is instead completed field-by-field:
score 5, analysis "Analysis not provided", missing-info "None", follow-up
the first configured prompt. -/
theorem claim_C3 (judge : JudgeReply) (resp field : String) (mem : InterviewMemory)
    (hfail : judge = .callFailure ∨ judge = .parseFailure) :
    utils_evaluate_response judge resp field mem = utils_error_verdict field
    ∧ (utils_error_verdict field).satisfaction_score = 5
    ∧ (utils_error_verdict field).satisfaction_score < 7
    ∧ (utils_error_verdict field).follow_up_question ≠ ""
    ∧ (∀ sc an mi fu, field ∈ FIELD_REQUIREMENTS.map Prod.fst →
        utils_evaluate_response (.parsed sc an mi fu) resp field mem =
          { satisfaction_score := sc.getD 5
            analysis := an.getD "Analysis not provided"
            missing_info := mi.getD "None"
            follow_up_question := fu.getD (firstFollowUp field) }) := by
  refine ⟨?_, ?_, ?_, utils_error_nonempty field, ?_⟩
  · unfold utils_evaluate_response
    rcases hfail with rfl | rfl <;>
      rcases alistFind? FIELD_REQUIREMENTS field with _ | req <;> rfl
  · unfold utils_error_verdict
    rcases alistFind? FIELD_REQUIREMENTS field with _ | req <;> rfl
  · unfold utils_error_verdict
    rcases alistFind? FIELD_REQUIREMENTS field with _ | req <;> norm_num
  · intro sc an mi fu hmem
    obtain ⟨req, hreq⟩ := alistFind?_isSome_of_mem FIELD_REQUIREMENTS field hmem
    unfold utils_evaluate_response
    rw [hreq]
    have hfu : firstFollowUp field = req.follow_up_questions.headD "" := by
      unfold firstFollowUp
      rw [hreq]
      rfl
    rw [hfu]

theorem claim_C3_witness :
    utils_evaluate_response .callFailure "r" "name" InterviewMemory.empty =
      utils_error_verdict "name"
    ∧ (utils_error_verdict "name").follow_up_question ≠ "" := by
  obtain ⟨h1, _, _, h4, _⟩ :=
    claim_C3 .callFailure "r" "name" InterviewMemory.empty (Or.inl rfl)
  exact ⟨h1, h4⟩

/-- **C1.** For every processed utterance the controller advances the
current-topic pointer to the next catalog topic iff the negative-response
path is taken or the evaluator's satisfaction score for the turn is ≥ 7
(`app_advances` / `main_advances`, read off `src/app.py` 39/102 and
`src/main.py` 285/323); under every other condition the pointer stays.
When the current topic is last there is no next topic and the pointer never
moves (`src/main.py` additionally ends the loop exactly then). -/
theorem claim_C1 :
    (∀ (judge : Option JudgeVerdict) (s : AppState) (u : String),
      (s.interview_form.map Prod.fst).Nodup →
      s.current_field ∈ s.interview_form.map Prod.fst →
      (∀ nf, nextAfter (s.interview_form.map Prod.fst) s.current_field = some nf →
        ((app_process_response judge s u).1.current_field = nf ↔ app_advances judge s u))
      ∧ (¬ app_advances judge s u →
          (app_process_response judge s u).1.current_field = s.current_field)
      ∧ (nextAfter (s.interview_form.map Prod.fst) s.current_field = none →
          (app_process_response judge s u).1.current_field = s.current_field))
    ∧
    (∀ (judge : Option JudgeVerdict) (s : MainState) (u : String),
      pyLower u ≠ "exit" →
      (s.interview_form.map Prod.fst).Nodup →
      s.current_field ∈ s.interview_form.map Prod.fst →
      s.current_field ≠ "" →
      (∀ nf, nextAfter (s.interview_form.map Prod.fst) s.current_field = some nf →
        ((conduct_interview_step judge s u).1.current_field = nf ↔ main_advances judge s u))
      ∧ (¬ main_advances judge s u →
          (conduct_interview_step judge s u).1.current_field = s.current_field
          ∧ (conduct_interview_step judge s u).2 = true)
      ∧ (nextAfter (s.interview_form.map Prod.fst) s.current_field = none →
          (conduct_interview_step judge s u).1.current_field = s.current_field
          ∧ ((conduct_interview_step judge s u).2 = false ↔ main_advances judge s u))) := by
  constructor
  · intro judge s u hnd hmem
    have hspec := app_current_spec judge s u hmem
    refine ⟨?_, ?_, ?_⟩
    · intro nf hnf
      constructor
      · intro heq
        by_contra hadv
        rw [hspec, if_neg hadv] at heq
        exact nextAfter_ne _ _ _ hnd hnf heq.symm
      · intro hadv
        rw [hspec, if_pos hadv, hnf]
        rfl
    · intro hadv
      rw [hspec, if_neg hadv]
    · intro hnone
      rw [hspec, hnone]
      by_cases hadv : app_advances judge s u
      · rw [if_pos hadv]
        rfl
      · rw [if_neg hadv]
  · intro judge s u hexit hnd hmem hne
    obtain ⟨hcur, hflag⟩ := main_current_spec judge s u hmem hne hexit
    refine ⟨?_, ?_, ?_⟩
    · intro nf hnf
      constructor
      · intro heq
        by_contra hadv
        rw [hcur, if_neg hadv] at heq
        exact nextAfter_ne _ _ _ hnd hnf heq.symm
      · intro hadv
        rw [hcur, if_pos hadv, hnf]
        rfl
    · intro hadv
      refine ⟨by rw [hcur, if_neg hadv], ?_⟩
      cases hb : (conduct_interview_step judge s u).2
      · exact absurd (hflag.mp hb).1 hadv
      · rfl
    · intro hnone
      constructor
      · rw [hcur, hnone]
        by_cases hadv : main_advances judge s u
        · rw [if_pos hadv]
          rfl
        · rw [if_neg hadv]
      · rw [hflag, hnone]
        simp

theorem claim_C1_witness :
    (app_process_response none app_initial_state "no").1.current_field = "current_role"
    ∧ (conduct_interview_step (some ⟨8, "a", "m", "q", "s"⟩) main_initial_state
        "John Smith").1.current_field = "current_role" := by
  constructor
  · exact ((claim_C1.1 none app_initial_state "no" (by decide) (by decide)).1
      "current_role" (by decide)).mpr (by decide)
  · exact ((claim_C1.2 (some ⟨8, "a", "m", "q", "s"⟩) main_initial_state "John Smith"
      (by decide) (by decide) (by decide) (by decide)).1
      "current_role" (by decide)).mpr (by decide)

/-- **C2.** For every topic and every utterance classified negative by the
respective controller's detector while that topic is current: the topic's
satisfaction is set to exactly 0; the utterance is never appended (the whole
accumulator is untouched, so raw list and composite are unchanged); the
evaluator is not called (the turn's result is independent of the judge);
and the controller advances to the next catalog topic, or completes when
the topic is last (`src/app.py` emits the completion message without moving
the pointer; `src/main.py` breaks the loop). -/
theorem claim_C2 :
    (∀ (judge judge' : Option JudgeVerdict) (s : AppState) (u : String),
      is_negative_response_app u = true →
      s.current_field ∈ s.interview_form.map Prod.fst →
      satisfactionOf (app_process_response judge s u).1.interview_form s.current_field
          = some 0
      ∧ (app_process_response judge s u).1.memory = s.memory
      ∧ (app_process_response judge s u).1.memory.fieldList s.current_field
          = s.memory.fieldList s.current_field
      ∧ (app_process_response judge s u).1.memory.get_field_history s.current_field
          = s.memory.get_field_history s.current_field
      ∧ app_process_response judge s u = app_process_response judge' s u
      ∧ (∀ nf, nextAfter (s.interview_form.map Prod.fst) s.current_field = some nf →
          (app_process_response judge s u).1.current_field = nf)
      ∧ (nextAfter (s.interview_form.map Prod.fst) s.current_field = none →
          (app_process_response judge s u).2 = "Thank you, we've completed all the topics!"
          ∧ (app_process_response judge s u).1.current_field = s.current_field))
    ∧
    (∀ (judge judge' : Option JudgeVerdict) (s : MainState) (u : String),
      is_negative_response_main u = true →
      pyLower u ≠ "exit" →
      s.current_field ∈ s.interview_form.map Prod.fst →
      satisfactionOf (conduct_interview_step judge s u).1.interview_form s.current_field
          = some 0
      ∧ (conduct_interview_step judge s u).1.memory = s.memory
      ∧ (conduct_interview_step judge s u).1.memory.fieldList s.current_field
          = s.memory.fieldList s.current_field
      ∧ conduct_interview_step judge s u = conduct_interview_step judge' s u
      ∧ (∀ nf, nextAfter (s.interview_form.map Prod.fst) s.current_field = some nf →
          (conduct_interview_step judge s u).1.current_field = nf
          ∧ (conduct_interview_step judge s u).2 = true)
      ∧ (nextAfter (s.interview_form.map Prod.fst) s.current_field = none →
          (conduct_interview_step judge s u).2 = false
          ∧ (conduct_interview_step judge s u).1.current_field = s.current_field)) := by
  constructor
  · intro judge judge' s u hneg hmem
    obtain ⟨hm, hsat, hj⟩ := app_neg_spec judge judge' s u hneg
    obtain ⟨hnone, hsome⟩ := app_neg_messages judge s u hneg hmem
    exact ⟨hsat, hm, by rw [hm], by rw [hm], hj,
      fun nf hnf => (hsome nf hnf).1, hnone⟩
  · intro judge judge' s u hneg hexit hmem
    obtain ⟨hm, hsat, hj⟩ := main_neg_spec judge judge' s u hneg hexit
    obtain ⟨hsome, hnone⟩ := main_neg_advance judge s u hneg hexit hmem
    exact ⟨hsat, hm, by rw [hm], hj, hsome, hnone⟩

theorem claim_C2_witness :
    satisfactionOf (app_process_response none app_initial_state "no").1.interview_form
        "name" = some 0
    ∧ (app_process_response none app_initial_state "no").1.memory = InterviewMemory.empty
    ∧ (conduct_interview_step none main_initial_state "no").1.memory
        = InterviewMemory.empty := by
  obtain ⟨h1, h2, _⟩ := claim_C2.1 none (some ⟨9, "a", "m", "q", "s"⟩) app_initial_state "no"
    (by decide) (by decide)
  obtain ⟨_, h3, _⟩ := claim_C2.2 none (some ⟨9, "a", "m", "q", "s"⟩) main_initial_state "no"
    (by decide) (by decide) (by decide)
  exact ⟨h1, h2, h3⟩

/-- **C7.** Along every run of either controller from a well-formed state,
the current-topic pointer visits catalog identifiers in nondecreasing
catalog order (every step is the identity or the catalog successor, so the
pointer never moves backward), and a pointer value that recurs forces every
intermediate pointer to equal it — each topic is current in one contiguous
block, i.e. visited at most once. -/
theorem claim_C7 :
    (∀ (K : List String) (turns : List (Option JudgeVerdict × String)) (s : AppState),
      K.Nodup → s.interview_form.map Prod.fst = K → s.current_field ∈ K →
      List.Pairwise (fun a b => fieldIdx K a ≤ fieldIdx K b)
        ((app_run_states turns s).map AppState.current_field)
      ∧ (∀ (i j k : Fin ((app_run_states turns s).map AppState.current_field).length),
          i < j → j < k →
          ((app_run_states turns s).map AppState.current_field).get i =
            ((app_run_states turns s).map AppState.current_field).get k →
          ((app_run_states turns s).map AppState.current_field).get j =
            ((app_run_states turns s).map AppState.current_field).get i))
    ∧
    (∀ (K : List String) (turns : List (Option JudgeVerdict × String)) (s : MainState),
      K.Nodup → "" ∉ K → s.interview_form.map Prod.fst = K → s.current_field ∈ K →
      List.Pairwise (fun a b => fieldIdx K a ≤ fieldIdx K b)
        ((conduct_interview_run turns s).map MainState.current_field)
      ∧ (∀ (i j k : Fin ((conduct_interview_run turns s).map MainState.current_field).length),
          i < j → j < k →
          ((conduct_interview_run turns s).map MainState.current_field).get i =
            ((conduct_interview_run turns s).map MainState.current_field).get k →
          ((conduct_interview_run turns s).map MainState.current_field).get j =
            ((conduct_interview_run turns s).map MainState.current_field).get i)) := by
  constructor
  · intro K turns s hnd hK hmem
    obtain ⟨hch, hall⟩ := app_run_chain K turns s hK hmem
    have hmap : List.Chain' (fun a b => b = a ∨ nextAfter K a = some b)
        ((app_run_states turns s).map AppState.current_field) := by
      rw [List.chain'_map]
      exact hch
    have hp := chain_next_mono K hnd _ hmap
    have hmemall : ∀ x ∈ (app_run_states turns s).map AppState.current_field, x ∈ K := by
      intro x hx
      rw [List.mem_map] at hx
      obtain ⟨a, ha, rfl⟩ := hx
      exact hall a ha
    exact ⟨hp, mono_at_most_once K hnd _ hmemall hp⟩
  · intro K turns s hnd hblank hK hmem
    obtain ⟨hch, hall⟩ := main_run_chain K hblank turns s hK hmem
    have hmap : List.Chain' (fun a b => b = a ∨ nextAfter K a = some b)
        ((conduct_interview_run turns s).map MainState.current_field) := by
      rw [List.chain'_map]
      exact hch
    have hp := chain_next_mono K hnd _ hmap
    have hmemall : ∀ x ∈ (conduct_interview_run turns s).map MainState.current_field,
        x ∈ K := by
      intro x hx
      rw [List.mem_map] at hx
      obtain ⟨a, ha, rfl⟩ := hx
      exact hall a ha
    exact ⟨hp, mono_at_most_once K hnd _ hmemall hp⟩

theorem claim_C7_witness :
    List.Pairwise (fun a b =>
        fieldIdx ["name", "current_role", "years_of_experience", "technical_skills",
          "project_experience", "motivation", "preferred_work_environment"] a ≤
        fieldIdx ["name", "current_role", "years_of_experience", "technical_skills",
          "project_experience", "motivation", "preferred_work_environment"] b)
      ((app_run_states [(none, "no"), (none, "John Smith")]
        app_initial_state).map AppState.current_field)
    ∧ List.Pairwise (fun a b =>
        fieldIdx ["name", "current_role", "years_of_experience", "technical_skills",
          "project_experience", "motivation", "preferred_work_environment"] a ≤
        fieldIdx ["name", "current_role", "years_of_experience", "technical_skills",
          "project_experience", "motivation", "preferred_work_environment"] b)
      ((conduct_interview_run [(none, "no")] main_initial_state).map
        MainState.current_field) :=
  ⟨(claim_C7.1 ["name", "current_role", "years_of_experience", "technical_skills",
      "project_experience", "motivation", "preferred_work_environment"]
      [(none, "no"), (none, "John Smith")] app_initial_state
      (by decide) (by decide) (by decide)).1,
   (claim_C7.2 ["name", "current_role", "years_of_experience", "technical_skills",
      "project_experience", "motivation", "preferred_work_environment"]
      [(none, "no")] main_initial_state
      (by decide) (by decide) (by decide) (by decide)).1⟩

end Interview
